import Mathlib

/-
  Verification of the GeoSearch offline gazetteer engine
  (src/GeoSearch/geosearch.py) against its specification.

  Shallow embedding conventions:
  * A stored whoosh document is a `Doc`; the index's retrievable documents
    are a `List Doc` in insertion order.
  * Machine floats of the source (latitude, longitude, maxdist, range) are
    embedded as rationals `ℚ`; only order comparisons, addition and
    subtraction are performed on them by the code under verification.
  * Python exceptions are `Except GeoErr`.
  * Disk state (the placecodes.json file, the index directory) is passed
    explicitly; file reads are counted so that caching behaviour is
    observable.
  * whoosh internals that are not part of this repository (text analysis,
    fuzzy term expansion, term/range matching, relevance scores) are
    modelled from the spec where noted; result ordering beyond "index
    insertion order, truncated to limit" is abstracted away, which no claim
    below depends on.
-/

set_option linter.unusedVariables false

namespace GeoSearch

/-- Errors raised by the embedded code: `ValueError` from `find`,
`FileNotFoundError` from `_add_description`, whoosh's `EmptyIndexError`
from `open_dir`. -/
inductive GeoErr where
  | valueError
  | fileNotFound
  | emptyIndex
deriving DecidableEq, Repr

/-- The stored fields of one indexed gazetteer record (the schema of
`GeoSearch.schema`, lines 27-47 of geosearch.py). -/
structure Doc where
  geonameid : String
  name : String
  asciiname : String
  alternatenames : String
  latitude : ℚ
  longitude : ℚ
  feature_class : String
  feature_code : String
  country_code : String
  cc2 : String
  admin1_code : String
  admin2_code : String
  admin3_code : String
  admin4_code : String
  population : Option Int
  elevation : Option Int
  dem : Option Int
  timezone : String
  modification_date : Option String
deriving DecidableEq, Repr

/-- The fields of a hierarchy summary: a matched ADM record with
`admin1..4_code`, `feature_code`, `feature_class`, `country_code` and `cc2`
popped (`excludeatb`, line 231 of geosearch.py). -/
structure AdminSummary where
  geonameid : String
  name : String
  asciiname : String
  alternatenames : String
  latitude : ℚ
  longitude : ℚ
  population : Option Int
  elevation : Option Int
  dem : Option Int
  timezone : String
  modification_date : Option String
deriving DecidableEq, Repr

/-- Dropping the excluded hierarchical/classification fields from a stored
record (the `other.pop(key, None)` loop, lines 244-247). -/
def stripFields (d : Doc) : AdminSummary :=
  ⟨d.geonameid, d.name, d.asciiname, d.alternatenames, d.latitude,
   d.longitude, d.population, d.elevation, d.dem, d.timezone,
   d.modification_date⟩

/-- The description fields written by `_add_description`
(lines 223-225). `feature_class_descr` may be JSON null. -/
structure DescrFields where
  feature_class_descr : Option String
  feature_code_short : String
  feature_code_full : String
deriving DecidableEq, Repr

/-- One entry of a query response: the stored record plus the optional
description fields (present iff `expand_codes`) and the optional
`admin1..admin4` summaries attached by `_add_hierarchy`. -/
structure EnrichedDoc where
  place : Doc
  descr : Option DescrFields
  admin1 : Option AdminSummary
  admin2 : Option AdminSummary
  admin3 : Option AdminSummary
  admin4 : Option AdminSummary
deriving DecidableEq, Repr

/-! ## FeatureCodeTable -/

/-- Short and full description of one feature code. -/
structure CodeDescr where
  short : String
  full : String
deriving DecidableEq, Repr

/-- One feature-class entry of placecodes.json:
`{descr: string|null, codes: {code: {short, full}}}`. -/
structure ClassEntry where
  descr : Option String
  codes : List (String × CodeDescr)
deriving DecidableEq, Repr

/-- The decoded placecodes.json object, keyed by feature class. -/
abbrev Table := List (String × ClassEntry)

/-- Python falsiness of `self.place_codes` (`if not self.place_codes`,
line 210): `None` or the empty dict. -/
def tableFalsy : Option Table → Bool
  | none => true
  | some t => t.isEmpty

/-- The pure lookup part of `_add_description` (lines 215-222):
`place_codes.get(classid, ...)` then `codes.get(codeid, {})` with
empty-string defaults for the short/full descriptions. -/
def descrOf (t : Table) (d : Doc) : DescrFields :=
  let fclass := (t.lookup d.feature_class).getD ⟨none, []⟩
  let fcode := (fclass.codes.lookup d.feature_code).getD ⟨"", ""⟩
  ⟨fclass.descr, fcode.short, fcode.full⟩

/-- `GeoSearch._add_description` (lines 209-225). `file` is the content of
placecodes.json on disk (`none` when the file is absent), `cache` is
`self.place_codes`. Returns the description fields, the new cache, and the
number of disk reads performed (0 or 1). Opening an absent file raises
`FileNotFoundError`. -/
def add_description (file : Option Table) (cache : Option Table) (d : Doc) :
    Except GeoErr (DescrFields × Option Table × Nat) :=
  if tableFalsy cache then
    match file with
    | none => .error .fileNotFound
    | some t => .ok (descrOf t d, some t, 1)
  else
    .ok (descrOf (cache.getD []) d, cache, 0)

/-! ## Text analysis and tiered term matching

whoosh's analyzer and fuzzy term expansion are library code, not part of
this repository. Modelled from the spec: tokenization lowercases and splits
on non-alphanumeric characters; a fuzzy term matches any indexed term
within the given edit distance whose first character matches exactly. -/

/-- Lowercase a string character by character. -/
def lowerStr (s : String) : String :=
  String.mk (s.data.map Char.toLower)

/-- Alphanumeric test used by the tokenizer. -/
def isAlnumChar (c : Char) : Bool :=
  c.isAlpha || c.isDigit

/-- Modelled from the spec: split an already-lowercased character list on
non-alphanumeric characters, dropping empty tokens. `cur` holds the
current token reversed. -/
def splitTokens : List Char → List Char → List String
  | [], cur => if cur.isEmpty then [] else [String.mk cur.reverse]
  | c :: rest, cur =>
    if isAlnumChar c then splitTokens rest (c :: cur)
    else (if cur.isEmpty then [] else [String.mk cur.reverse]) ++ splitTokens rest []

/-- Modelled from the spec: standard text-analysis tokenization, lowercase
then split on non-alphanumeric. -/
def tokenize (s : String) : List String :=
  splitTokens (s.data.map Char.toLower) []

/-- Levenshtein edit distance between two character lists. -/
def lev : List Char → List Char → Nat
  | [], ys => ys.length
  | x :: xs, [] => (x :: xs).length
  | x :: xs, y :: ys =>
    if x = y then lev xs ys
    else 1 + min (lev xs (y :: ys)) (min (lev (x :: xs) ys) (lev xs ys))
termination_by xs ys => xs.length + ys.length
decreasing_by all_goals simp_wf <;> omega

/-- Modelled from the spec: a fuzzy query term matches an indexed term when
the first character matches exactly (whoosh `prefixlength=1`) and the edit
distance is at most `maxdist`. -/
def fuzzyTermMatch (maxdist : Nat) (qt w : String) : Bool :=
  qt.data.take 1 = w.data.take 1 && lev qt.data w.data ≤ maxdist

/-- The three match tiers of `GeoSearch.find` (lines 89-103): the plain
parser, `termclass=wq.FuzzyTerm` (edit distance 1), and
`termclass=FuzzyTerm2` (edit distance 2). -/
inductive Level where
  | exact
  | single
  | double
deriving DecidableEq, Repr

/-- Term matching used by each tier. -/
def levelTermMatch : Level → String → String → Bool
  | .exact, qt, w => qt == w
  | .single, qt, w => fuzzyTermMatch 1 qt w
  | .double, qt, w => fuzzyTermMatch 2 qt w

/-- Modelled from the spec: a document matches a parsed multifield query
when every query token matches some indexed token of `name`, `asciiname`
or `alternatenames` (AND across query terms, OR across the three fields). -/
def docMatch (tp : String → String → Bool) (querystr : String) (d : Doc) : Bool :=
  (tokenize querystr).all fun qt =>
    [d.name, d.asciiname, d.alternatenames].any fun f =>
      (tokenize f).any fun w => tp qt w

/-- One tier's `searcher.search(q, limit=limit, scored=True)` (line 106):
the matching documents in index insertion order, truncated to `limit`
(relevance-score ordering is abstracted; no claim depends on it). -/
def tierSearch (lv : Level) (idx : List Doc) (querystr : String) (limit : Nat) : List Doc :=
  (idx.filter (docMatch (levelTermMatch lv) querystr)).take limit

/-- The `levels` list built by `find` (lines 89-93): always `exact`;
`single` when `maxdist != 0`; `double` when `maxdist == 2`. -/
def levels (maxdist : ℚ) : List Level :=
  [Level.exact] ++ (if maxdist ≠ 0 then [Level.single] else [])
    ++ (if maxdist = 2 then [Level.double] else [])

/-! ## Hierarchy resolver -/

/-- `"admin" + l + "_code"` field access on a stored record. -/
def adminField : Nat → Doc → String
  | 1, d => d.admin1_code
  | 2, d => d.admin2_code
  | 3, d => d.admin3_code
  | 4, d => d.admin4_code
  | _, _ => ""

/-- Modelled from the spec: `wq.Term(field, value)` matching on an analyzed
TEXT field holding a single admin/country/feature code, i.e. exact match of
the lowercased stored value against the (already lowercased) query value. -/
def termMatch (fieldval term : String) : Bool :=
  lowerStr fieldval == term

/-- The containment query issued at level `n` (lines 239-240): exact match
on `country_code`, on `adminK_code` for every `1 ≤ K ≤ n`, and on
`feature_code == "adm" + n`, all values lowercased. -/
def containQuery (idx : List Doc) (atb : Doc) (n : Nat) : List Doc :=
  idx.filter fun d =>
    (termMatch d.country_code (lowerStr atb.country_code)
      && (List.range' 1 n).all fun k =>
           termMatch (adminField k d) (lowerStr (adminField k atb)))
    && termMatch d.feature_code ("adm" ++ toString n)

/-- The level loop of `GeoSearch._add_hierarchy` (lines 233-249). `conds`
is the accumulated `conditions` list as one predicate. Returns the
`(level, summary)` pairs written into `atb`. -/
def hierGo (idx : List Doc) (atb : Doc) :
    List Nat → (Doc → Bool) → List (Nat × AdminSummary)
  | [], _ => []
  | l :: rest, conds =>
    let adminvalue := lowerStr (adminField l atb)
    if adminvalue = "" then []
    else
      let conds2 : Doc → Bool := fun d => conds d && termMatch (adminField l d) adminvalue
      match idx.filter (fun d => conds2 d && termMatch d.feature_code ("adm" ++ toString l)) with
      | [other] => (l, stripFields other) :: hierGo idx atb rest conds2
      | _ => []

/-- `GeoSearch._add_hierarchy` (lines 227-249): walk levels 1..4 starting
from the `country_code` condition. -/
def add_hierarchy (idx : List Doc) (atb : Doc) : List (Nat × AdminSummary) :=
  hierGo idx atb [1, 2, 3, 4]
    (fun d => termMatch d.country_code (lowerStr atb.country_code))

/-! ## Response assembly -/

/-- Attach the `(level, summary)` pairs produced by `_add_hierarchy` as the
`admin1..admin4` fields (`atb['admin' + l] = other`, line 247). -/
def attachAdmins : List (Nat × AdminSummary) → EnrichedDoc → EnrichedDoc
  | [], e => e
  | p :: ps, e =>
    attachAdmins ps
      (if p.1 = 1 then { e with admin1 := some p.2 }
       else if p.1 = 2 then { e with admin2 := some p.2 }
       else if p.1 = 3 then { e with admin3 := some p.2 }
       else if p.1 = 4 then { e with admin4 := some p.2 }
       else e)

/-- The `expand_codes` step of `_response` (lines 142-143), keeping the
optional description fields next to the updated cache and read count. -/
def descrStep (file : Option Table) (expand : Bool) (cache : Option Table) (d : Doc) :
    Except GeoErr (Option DescrFields × Option Table × Nat) :=
  if expand then
    match add_description file cache d with
    | .error e => .error e
    | .ok (df, c2, n) => .ok (some df, c2, n)
  else .ok (none, cache, 0)

/-- `GeoSearch._response` (lines 136-153): for each hit, take its stored
fields, run `_add_description` when `expand_codes`, run `_add_hierarchy`
when `hierarchy`. Threads the placecodes cache and counts disk reads. -/
def response (idx : List Doc) (file : Option Table) (hier expand : Bool) :
    List Doc → Option Table → Except GeoErr (List EnrichedDoc × Option Table × Nat)
  | [], cache => .ok ([], cache, 0)
  | d :: rest, cache =>
    match descrStep file expand cache d with
    | .error e => .error e
    | .ok (df, c2, n) =>
      let ed : EnrichedDoc :=
        attachAdmins (if hier then add_hierarchy idx d else []) ⟨d, df, none, none, none, none⟩
      match response idx file hier expand rest c2 with
      | .error e => .error e
      | .ok (eds, c3, n2) => .ok (ed :: eds, c3, n + n2)

/-! ## find and findpos -/

/-- The tier loop of `GeoSearch.find` (lines 95-110): run each tier in
order, break at the first whose response is non-empty, return the last
(empty) response otherwise. -/
def findLoop (idx : List Doc) (file : Option Table) (querystr : String)
    (limit : Nat) (hier expand : Bool) :
    List Level → Option Table → Except GeoErr (List EnrichedDoc × Option Table × Nat)
  | [], cache => .ok ([], cache, 0)
  | lv :: rest, cache =>
    match response idx file hier expand (tierSearch lv idx querystr limit) cache with
    | .error e => .error e
    | .ok (found, cache2, n) =>
      if found.isEmpty then
        match findLoop idx file querystr limit hier expand rest cache2 with
        | .error e => .error e
        | .ok (found2, cache3, n2) => .ok (found2, cache3, n + n2)
      else .ok (found, cache2, n)

/-- `GeoSearch.find` (lines 73-112): validate `maxdist`, build the tier
list, run the cascade. -/
def find (idx : List Doc) (file : Option Table) (cache : Option Table)
    (querystr : String) (limit : Nat) (maxdist : ℚ) (hier expand : Bool) :
    Except GeoErr (List EnrichedDoc × Option Table × Nat) :=
  if maxdist > 2 then .error .valueError
  else findLoop idx file querystr limit hier expand (levels maxdist) cache

/-- The default of the `range` parameter of `findpos` (line 114). -/
def DEFAULT_RANGE : ℚ := 1 / 1000

/-- The conjunctive numeric-range predicate of `findpos` (lines 127-130):
`NumericRange` bounds are inclusive. -/
def bboxPred (lat lon r : ℚ) (d : Doc) : Bool :=
  decide (lat - r ≤ d.latitude) && decide (d.latitude ≤ lat + r)
    && (decide (lon - r ≤ d.longitude) && decide (d.longitude ≤ lon + r))

/-- The spatial query of `findpos` (line 131): matching documents in index
insertion order, truncated to `limit`. -/
def bboxSearch (idx : List Doc) (lat lon : ℚ) (limit : Nat) (r : ℚ) : List Doc :=
  (idx.filter (bboxPred lat lon r)).take limit

/-- `GeoSearch.findpos` (lines 114-134). -/
def findpos (idx : List Doc) (file : Option Table) (cache : Option Table)
    (lat lon : ℚ) (limit : Nat) (r : ℚ) (hier expand : Bool) :
    Except GeoErr (List EnrichedDoc × Option Table × Nat) :=
  response idx file hier expand (bboxSearch idx lat lon limit r) cache

/-! ## Bulk indexer -/

/-- The observable state of a committed whoosh index: the retrievable
documents in insertion order, plus the `optimize` flag of every commit
issued on it (to make line 286's `optimize=not append` checkable). -/
structure IdxState where
  docs : List Doc
  commitLog : List Bool
deriving DecidableEq, Repr

/-- The on-disk state of the index directory: absent entirely, present but
holding no index, or holding a committed index. -/
inductive IndexDir where
  | absent
  | emptyDir
  | withIndex (s : IdxState)
deriving DecidableEq, Repr

/-- Lines 253-257 of `_indexfile`: `if overwrite or (not
os.path.exists(indexdir)): create_in(...) else: open_dir(...)`; `open_dir`
raises `EmptyIndexError` when the directory holds no index. -/
def openOrCreate (overwrite : Bool) (d : IndexDir) : Except GeoErr IdxState :=
  if overwrite || !(d matches IndexDir.emptyDir | IndexDir.withIndex _) then
    .ok ⟨[], []⟩
  else
    match d with
    | .withIndex s => .ok s
    | _ => .error .emptyIndex

/-- Lines 280-283: `add_document` when `append` (add-only), otherwise
`update_document` (whoosh upsert: delete every document with the same
value of the unique `geonameid` field, then add). -/
def insertDoc (append : Bool) (s : IdxState) (d : Doc) : IdxState :=
  if append then { s with docs := s.docs ++ [d] }
  else { s with docs := s.docs.filter (fun e => e.geonameid ≠ d.geonameid) ++ [d] }

/-- `whoowriter.commit(optimize=not append)` (lines 286, 289): record the
optimize flag of the commit. -/
def commitIdx (optimize : Bool) (s : IdxState) : IdxState :=
  { s with commitLog := s.commitLog ++ [optimize] }

/-- The writer loop of `_indexfile` (lines 266-289): insert each record,
commit every 1,000,000 records with `optimize=not append`, final commit at
the end. `iline` is the running line number. -/
def writeLoop (append : Bool) : List Doc → Nat → IdxState → IdxState
  | [], _, s => commitIdx (!append) s
  | d :: rest, iline, s =>
    let s1 := insertDoc append s d
    let s2 := if iline % 1000000 = 999999 then commitIdx (!append) s1 else s1
    writeLoop append rest (iline + 1) s2

/-- `GeoSearch._indexfile` (lines 251-289) on already-parsed records (the
per-line field splitting and float/int/date coercions of lines 261-278 are
outside every claim and are not modelled). -/
def indexfile (records : List Doc) (d : IndexDir) (overwrite append : Bool) :
    Except GeoErr IdxState :=
  match openOrCreate overwrite d with
  | .error e => .error e
  | .ok s => .ok (writeLoop append records 0 s)

/-- The per-file loop of `GeoSearch.download` (lines 198-205): index each
file, set `overwrite=False` after the first success, swallow exceptions
(`except Exception: pass`, leaving the directory unchanged). `append` is
fixed before the loop. -/
def downloadLoop (append : Bool) : List (List Doc) → Bool → IndexDir → IndexDir
  | [], _, d => d
  | f :: rest, overwrite, d =>
    match indexfile f d overwrite append with
    | .ok s => downloadLoop append rest false (.withIndex s)
    | .error _ => downloadLoop append rest overwrite d

/-- `GeoSearch.download` (lines 156-207) restricted to its indexing path:
`append = overwrite` (line 196), then the per-file loop. `overwrite=True`
is REPLACE mode, `overwrite=False` is APPEND mode. -/
def download (files : List (List Doc)) (d : IndexDir) (overwrite : Bool) : IndexDir :=
  downloadLoop overwrite files overwrite d

/-- The retrievable documents of an index directory. -/
def dirDocs : IndexDir → List Doc
  | .withIndex s => s.docs
  | _ => []

/-- The commit log of an index directory. -/
def dirLog : IndexDir → List Bool
  | .withIndex s => s.commitLog
  | _ => []

/-! ## Spec-side restatements used to compare against the code -/

/-- Follows the spec's words: the conjunctive bounding-box filter,
`latitude ∈ [lat-r, lat+r]` and `longitude ∈ [lon-r, lon+r]`. -/
def inBox (lat lon r : ℚ) (d : Doc) : Prop :=
  lat - r ≤ d.latitude ∧ d.latitude ≤ lat + r ∧
    lon - r ≤ d.longitude ∧ d.longitude ≤ lon + r

/-- Follows the spec's words: upsert semantics keyed by id — delete every
retrievable document carrying the inserted record's `geonameid`, then
append the record. -/
def upsertById (acc : List Doc) (d : Doc) : List Doc :=
  acc.filter (fun e => e.geonameid ≠ d.geonameid) ++ [d]

/-- The per-level success condition of the hierarchy walk as the spec
states it: the record's admin code at level `k` is non-empty and the
containment query at level `k` yields exactly one match. -/
abbrev levelOK (idx : List Doc) (atb : Doc) (k : Nat) : Prop :=
  adminField k atb ≠ "" ∧ (containQuery idx atb k).length = 1

/-! ## Sample data for concrete checks -/

/-- A sample populated-place record at latitude 10, longitude 20. -/
def sampleGeo : Doc :=
  ⟨"42", "Sample", "Sample", "", 10, 20, "P", "PPL", "US", "", "11", "", "",
   "", none, none, none, "UTC", none⟩

/-- The unique ADM1 record containing `sampleGeo`. -/
def sampleAdm1 : Doc :=
  ⟨"43", "SampleState", "SampleState", "", 11, 21, "A", "ADM1", "US", "",
   "11", "", "", "", none, none, none, "UTC", none⟩

/-- A record with geonameid "1". -/
def sampleA : Doc :=
  ⟨"1", "Alpha", "Alpha", "", 0, 0, "P", "PPL", "US", "", "", "", "", "",
   none, none, none, "UTC", none⟩

/-- A different record that reuses geonameid "1". -/
def sampleB : Doc :=
  ⟨"1", "Beta", "Beta", "", 0, 0, "P", "PPL", "US", "", "", "", "", "",
   none, none, none, "UTC", none⟩

/-- A sample one-class, one-code feature table. -/
def sampleTable : Table :=
  [("P", ⟨some "city, village", [("PPL", ⟨"populated place", "a populated place"⟩)]⟩)]

/-! ## Helper lemmas -/

theorem attachAdmins_place (ps : List (Nat × AdminSummary)) (e : EnrichedDoc) :
    (attachAdmins ps e).place = e.place := by
  induction ps generalizing e with
  | nil => rfl
  | cons p ps ih =>
    show (attachAdmins ps _).place = e.place
    rw [ih]
    repeat' split
    all_goals rfl

theorem response_nil (idx : List Doc) (file : Option Table) (hier expand : Bool)
    (cache : Option Table) :
    response idx file hier expand [] cache = .ok ([], cache, 0) := rfl

theorem response_ok_places {idx : List Doc} {file : Option Table} {hier expand : Bool} :
    ∀ {res : List Doc} {cache : Option Table} {eds : List EnrichedDoc}
      {c2 : Option Table} {n : Nat},
      response idx file hier expand res cache = .ok (eds, c2, n) →
      eds.map EnrichedDoc.place = res := by
  intro res
  induction res with
  | nil =>
    intro cache eds c2 n h
    rw [response_nil] at h
    cases h
    rfl
  | cons d rest ih =>
    intro cache eds c2 n h
    rcases hs : descrStep file expand cache d with e | ⟨df, cd2, m⟩
    · simp only [response, hs] at h
      exact Except.noConfusion h
    · simp only [response, hs] at h
      rcases hr : response idx file hier expand rest cd2 with e | ⟨eds', c3, n2⟩
      · simp only [hr] at h
        exact Except.noConfusion h
      · simp only [hr] at h
        cases h
        simp [attachAdmins_place, ih hr]

theorem add_description_error {file cache : Option Table} {d : Doc} {e : GeoErr} :
    add_description file cache d = .error e → e = .fileNotFound := by
  unfold add_description
  split
  · rcases file with _ | t
    · simp only [Except.error.injEq]
      intro h
      exact h.symm
    · simp
  · simp

theorem descrStep_error {file : Option Table} {expand : Bool} {cache : Option Table}
    {d : Doc} {e : GeoErr} :
    descrStep file expand cache d = .error e → e = .fileNotFound := by
  unfold descrStep
  split
  · rcases h : add_description file cache d with e' | ⟨df, c2, n⟩ <;> simp
    intro he
    rw [he] at h
    exact add_description_error h
  · simp

theorem response_error {idx : List Doc} {file : Option Table} {hier expand : Bool} :
    ∀ {res : List Doc} {cache : Option Table} {e : GeoErr},
      response idx file hier expand res cache = .error e → e = .fileNotFound := by
  intro res
  induction res with
  | nil =>
    intro cache e h
    rw [response_nil] at h
    cases h
  | cons d rest ih =>
    intro cache e h
    rcases hs : descrStep file expand cache d with e' | ⟨df, cd2, m⟩
    · simp only [response, hs] at h
      cases h
      exact descrStep_error hs
    · simp only [response, hs] at h
      rcases hr : response idx file hier expand rest cd2 with e' | ⟨eds', c3, n2⟩
      · simp only [hr] at h
        cases h
        exact ih hr
      · simp only [hr] at h
        exact Except.noConfusion h

theorem findLoop_error {idx : List Doc} {file : Option Table} {q : String}
    {lim : Nat} {hier expand : Bool} :
    ∀ {lvs : List Level} {cache : Option Table} {e : GeoErr},
      findLoop idx file q lim hier expand lvs cache = .error e → e = .fileNotFound := by
  intro lvs
  induction lvs with
  | nil =>
    intro cache e h
    cases h
  | cons lv rest ih =>
    intro cache e h
    rcases hs : response idx file hier expand (tierSearch lv idx q lim) cache with
      e' | ⟨found, c2, n⟩
    · simp only [findLoop, hs] at h
      cases h
      exact response_error hs
    · simp only [findLoop, hs] at h
      by_cases hf : found.isEmpty
      · rw [if_pos hf] at h
        rcases hl : findLoop idx file q lim hier expand rest c2 with e' | ⟨f2, c3, n2⟩
        · simp only [hl] at h
          cases h
          exact ih hl
        · simp only [hl] at h
          exact Except.noConfusion h
      · rw [if_neg hf] at h
        exact Except.noConfusion h

theorem findLoop_cons (idx : List Doc) (file : Option Table) (q : String) (lim : Nat)
    (hier expand : Bool) (lv : Level) (rest : List Level) (cache : Option Table) :
    findLoop idx file q lim hier expand (lv :: rest) cache =
      if tierSearch lv idx q lim = [] then
        findLoop idx file q lim hier expand rest cache
      else response idx file hier expand (tierSearch lv idx q lim) cache := by
  by_cases hres : tierSearch lv idx q lim = []
  · rw [if_pos hres]
    simp only [findLoop, hres, response_nil, List.isEmpty_nil, if_true]
    rcases hfl : findLoop idx file q lim hier expand rest cache with e | ⟨f2, c3, n2⟩ <;>
      simp [hfl]
  · rw [if_neg hres]
    rcases hresp : response idx file hier expand (tierSearch lv idx q lim) cache with
      e | ⟨found, c2, n⟩
    · simp [findLoop, hresp]
    · have hf : found ≠ [] := by
        intro h0
        apply hres
        have hp := response_ok_places hresp
        rw [h0] at hp
        exact hp.symm
      rcases found with _ | ⟨ed, eds⟩
      · exact absurd rfl hf
      · simp [findLoop, hresp]

theorem insertDoc_commitLog (append : Bool) (s : IdxState) (d : Doc) :
    (insertDoc append s d).commitLog = s.commitLog := by
  unfold insertDoc
  split
  · rfl
  · rfl

theorem insertDoc_docs (append : Bool) (s : IdxState) (d : Doc) :
    (insertDoc append s d).docs =
      if append then s.docs ++ [d] else upsertById s.docs d := by
  unfold insertDoc upsertById
  split
  · rfl
  · rfl

theorem writeLoop_docs_true :
    ∀ (rs : List Doc) (i : Nat) (s : IdxState),
      (writeLoop true rs i s).docs = s.docs ++ rs := by
  intro rs
  induction rs with
  | nil => intro i s; simp [writeLoop, commitIdx]
  | cons d rest ih =>
    intro i s
    show (writeLoop true rest (i + 1) _).docs = _
    rw [ih]
    have hstep : ∀ s1 : IdxState,
        (if i % 1000000 = 999999 then commitIdx (!true) s1 else s1).docs = s1.docs := by
      intro s1
      split
      · rfl
      · rfl
    rw [hstep, insertDoc_docs]
    simp

theorem writeLoop_docs_false :
    ∀ (rs : List Doc) (i : Nat) (s : IdxState),
      (writeLoop false rs i s).docs = rs.foldl upsertById s.docs := by
  intro rs
  induction rs with
  | nil => intro i s; rfl
  | cons d rest ih =>
    intro i s
    show (writeLoop false rest (i + 1) _).docs = _
    rw [ih]
    have hstep : ∀ s1 : IdxState,
        (if i % 1000000 = 999999 then commitIdx (!false) s1 else s1).docs = s1.docs := by
      intro s1
      split
      · rfl
      · rfl
    rw [hstep, insertDoc_docs]
    rfl

theorem writeLoop_log (append : Bool) :
    ∀ (rs : List Doc) (i : Nat) (s : IdxState),
      ∃ new, (writeLoop append rs i s).commitLog = s.commitLog ++ new ∧
        ∀ b ∈ new, b = !append := by
  intro rs
  induction rs with
  | nil =>
    intro i s
    exact ⟨[!append], rfl, by simp⟩
  | cons d rest ih =>
    intro i s
    show ∃ new, (writeLoop append rest (i + 1) _).commitLog = _ ∧ _
    split
    · obtain ⟨new, h1, h2⟩ := ih (i + 1) (commitIdx (!append) (insertDoc append s d))
      refine ⟨(!append) :: new, ?_, ?_⟩
      · rw [h1]
        show (commitIdx (!append) _).commitLog ++ new = _
        rw [commitIdx, insertDoc_commitLog]
        simp
      · intro b hb
        rcases List.mem_cons.mp hb with hb | hb
        · exact hb
        · exact h2 b hb
    · obtain ⟨new, h1, h2⟩ := ih (i + 1) (insertDoc append s d)
      refine ⟨new, ?_, h2⟩
      rw [h1, insertDoc_commitLog]

theorem openOrCreate_overwrite (d : IndexDir) : openOrCreate true d = .ok ⟨[], []⟩ := rfl

theorem openOrCreate_absent : openOrCreate false .absent = .ok ⟨[], []⟩ := rfl

theorem openOrCreate_emptyDir : openOrCreate false .emptyDir = .error .emptyIndex := rfl

theorem openOrCreate_withIndex (s : IdxState) :
    openOrCreate false (.withIndex s) = .ok s := rfl

theorem indexfile_overwrite (records : List Doc) (d : IndexDir) (append : Bool) :
    indexfile records d true append = .ok (writeLoop append records 0 ⟨[], []⟩) := rfl

theorem indexfile_open (records : List Doc) (s : IdxState) (append : Bool) :
    indexfile records (.withIndex s) false append = .ok (writeLoop append records 0 s) := rfl

theorem downloadLoop_replace :
    ∀ (files : List (List Doc)) (s : IdxState),
      ∃ s', downloadLoop true files false (.withIndex s) = .withIndex s' ∧
        s'.docs = s.docs ++ files.flatten ∧
        ∃ new, s'.commitLog = s.commitLog ++ new ∧ ∀ b ∈ new, b = false := by
  intro files
  induction files with
  | nil =>
    intro s
    exact ⟨s, rfl, by simp, [], by simp⟩
  | cons f rest ih =>
    intro s
    show ∃ s', (match indexfile f (.withIndex s) false true with
      | .ok s1 => downloadLoop true rest false (.withIndex s1)
      | .error _ => downloadLoop true rest false (.withIndex s)) = _ ∧ _
    rw [indexfile_open]
    obtain ⟨s', h1, h2, new2, h3, h4⟩ := ih (writeLoop true f 0 s)
    obtain ⟨new1, hl1, hl2⟩ := writeLoop_log true f 0 s
    refine ⟨s', h1, ?_, new1 ++ new2, ?_, ?_⟩
    · rw [h2, writeLoop_docs_true]
      simp
    · rw [h3, hl1, List.append_assoc]
    · intro b hb
      rcases List.mem_append.mp hb with hb | hb
      · simpa using hl2 b hb
      · exact h4 b hb

theorem lowerStr_eq_empty_iff (s : String) : lowerStr s = "" ↔ s = "" := by
  cases s with
  | mk data =>
    constructor
    · intro h
      have hd : (lowerStr ⟨data⟩).data = ("" : String).data := by rw [h]
      simp only [lowerStr] at hd
      have : data = [] := List.map_eq_nil_iff.mp hd
      rw [this]
    · intro h
      rw [h]
      rfl

theorem hierGo_mem (idx : List Doc) (atb : Doc) :
    ∀ (m l : Nat) (conds : Doc → Bool),
      (∀ d, conds d =
        (termMatch d.country_code (lowerStr atb.country_code)
          && (List.range' 1 l).all fun k =>
               termMatch (adminField k d) (lowerStr (adminField k atb)))) →
      ∀ (n : Nat) (s : AdminSummary),
        ((n, s) ∈ hierGo idx atb (List.range' (l + 1) m) conds ↔
          (l + 1 ≤ n ∧ n ≤ l + m ∧
            (∀ k, l + 1 ≤ k → k ≤ n → levelOK idx atb k) ∧
            ∃ other, containQuery idx atb n = [other] ∧ s = stripFields other)) := by
  intro m
  induction m with
  | zero =>
    intro l conds hconds n s
    constructor
    · intro h
      simp [List.range'_zero, hierGo] at h
    · rintro ⟨h1, h2, -, -⟩
      exact absurd (h1.trans h2) (by omega)
  | succ m ih =>
    intro l conds hconds n s
    have hrange : List.range' 1 (l + 1) = List.range' 1 l ++ [l + 1] := by
      rw [List.range'_1_concat, Nat.add_comm]
    have hpred : ∀ d,
        (conds d && termMatch (adminField (l + 1) d) (lowerStr (adminField (l + 1) atb))) =
          (termMatch d.country_code (lowerStr atb.country_code)
            && (List.range' 1 (l + 1)).all fun k =>
                 termMatch (adminField k d) (lowerStr (adminField k atb))) := by
      intro d
      rw [hconds d, hrange]
      simp [List.all_append, Bool.and_assoc]
    have hfilter :
        (idx.filter fun d =>
          (conds d && termMatch (adminField (l + 1) d) (lowerStr (adminField (l + 1) atb)))
            && termMatch d.feature_code ("adm" ++ toString (l + 1))) =
          containQuery idx atb (l + 1) := by
      unfold containQuery
      exact List.filter_congr fun d _ => by rw [hpred d]
    rw [List.range'_succ]
    simp only [hierGo]
    by_cases hav : lowerStr (adminField (l + 1) atb) = ""
    · rw [if_pos hav]
      constructor
      · intro h
        simp at h
      · rintro ⟨h1, -, h3, -⟩
        exact absurd ((lowerStr_eq_empty_iff _).mp hav) (h3 (l + 1) le_rfl h1).1
    · rw [if_neg hav, hfilter]
      rcases hcq : containQuery idx atb (l + 1) with _ | ⟨other, _ | ⟨o2, t2⟩⟩
      · simp only [hcq]
        constructor
        · intro h
          simp at h
        · rintro ⟨h1, -, h3, -⟩
          have hlen := (h3 (l + 1) le_rfl h1).2
          rw [hcq] at hlen
          simp at hlen
      · simp only [hcq]
        have hok1 : levelOK idx atb (l + 1) := by
          refine ⟨fun hemp => hav ((lowerStr_eq_empty_iff _).mpr hemp), ?_⟩
          rw [hcq]
          rfl
        rw [List.mem_cons, ih (l + 1) _ hpred n s]
        constructor
        · rintro (heq | ⟨h1, h2, h3, hex⟩)
          · simp only [Prod.mk.injEq] at heq
            obtain ⟨hn, hs⟩ := heq
            subst hn
            subst hs
            refine ⟨le_rfl, by omega, ?_, other, hcq, rfl⟩
            intro k hk1 hk2
            have hk : k = l + 1 := by omega
            rw [hk]
            exact hok1
          · refine ⟨by omega, by omega, ?_, hex⟩
            intro k hk1 hk2
            by_cases hk : k = l + 1
            · rw [hk]
              exact hok1
            · exact h3 k (by omega) hk2
        · rintro ⟨h1, h2, h3, other', hcq', hs⟩
          by_cases hn : n = l + 1
          · left
            subst hn
            rw [hcq] at hcq'
            injection hcq' with ho _
            rw [hs, ho]
          · right
            exact ⟨by omega, by omega, fun k hk1 hk2 => h3 k (by omega) hk2,
              other', hcq', hs⟩
      · simp only [hcq]
        constructor
        · intro h
          simp at h
        · rintro ⟨h1, -, h3, -⟩
          have hlen := (h3 (l + 1) le_rfl h1).2
          rw [hcq] at hlen
          simp at hlen

theorem bboxPred_eq_true_iff (lat lon r : ℚ) (d : Doc) :
    bboxPred lat lon r d = true ↔ inBox lat lon r d := by
  simp [bboxPred, inBox, and_assoc]

theorem upsertById_nodup (acc : List Doc) (d : Doc)
    (h : (acc.map Doc.geonameid).Nodup) :
    ((upsertById acc d).map Doc.geonameid).Nodup := by
  unfold upsertById
  rw [List.map_append]
  refine List.Nodup.append ?_ (List.nodup_singleton _) ?_
  · exact List.Nodup.sublist ((List.filter_sublist acc).map Doc.geonameid) h
  · intro a ha hb
    simp only [List.mem_map, List.mem_filter, decide_eq_true_eq] at ha
    obtain ⟨e, ⟨hmem, hne⟩, hge⟩ := ha
    simp only [List.map_cons, List.map_nil, List.mem_singleton] at hb
    exact hne (hge.symm ▸ hb)

theorem foldl_upsert_nodup :
    ∀ (records : List Doc) (acc : List Doc),
      (acc.map Doc.geonameid).Nodup →
      ((records.foldl upsertById acc).map Doc.geonameid).Nodup := by
  intro records
  induction records with
  | nil => intro acc h; exact h
  | cons d rest ih =>
    intro acc h
    exact ih (upsertById acc d) (upsertById_nodup acc d h)

/-! ## Claim theorems -/

/-- C1: for every `find` call with a valid `maxdist`, the three tiers
(exact, single-fuzzy, double-fuzzy) are attempted strictly in that order,
stopping at the first tier with at least one hit: the result is the
response of the exact tier when it is non-empty, else of the single tier
when enabled and non-empty, else of the double tier when enabled and
non-empty, else empty — so a double-fuzzy hit is returned only when both
earlier tiers produced nothing, and an existing exact match settles the
call without the later tiers. -/
theorem find_cascade (idx : List Doc) (file cache : Option Table) (querystr : String)
    (limit : Nat) (maxdist : ℚ) (hier expand : Bool) (h : maxdist ≤ 2) :
    find idx file cache querystr limit maxdist hier expand =
      (if tierSearch .exact idx querystr limit ≠ [] then
        response idx file hier expand (tierSearch .exact idx querystr limit) cache
      else if maxdist ≠ 0 ∧ tierSearch .single idx querystr limit ≠ [] then
        response idx file hier expand (tierSearch .single idx querystr limit) cache
      else if maxdist = 2 ∧ tierSearch .double idx querystr limit ≠ [] then
        response idx file hier expand (tierSearch .double idx querystr limit) cache
      else .ok ([], cache, 0)) := by
  have hnot : ¬maxdist > 2 := not_lt.mpr h
  simp only [find, if_neg hnot]
  by_cases h0 : maxdist = 0
  · have hlv : levels maxdist = [Level.exact] := by
      subst h0
      norm_num [levels]
    rw [hlv, findLoop_cons]
    by_cases hE : tierSearch .exact idx querystr limit = []
    · rw [if_pos hE, if_neg (not_not_intro hE),
        if_neg (fun hc => hc.1 h0),
        if_neg (fun hc : maxdist = 2 ∧ _ => by rw [h0] at hc; norm_num at hc)]
      rfl
    · rw [if_neg hE, if_pos hE]
  · by_cases h2 : maxdist = 2
    · have hlv : levels maxdist = [Level.exact, Level.single, Level.double] := by
        subst h2
        norm_num [levels]
      rw [hlv, findLoop_cons]
      by_cases hE : tierSearch .exact idx querystr limit = []
      · rw [if_pos hE, findLoop_cons, if_neg (not_not_intro hE)]
        by_cases hS : tierSearch .single idx querystr limit = []
        · rw [if_pos hS, findLoop_cons,
            if_neg (fun hc : maxdist ≠ 0 ∧ tierSearch .single idx querystr limit ≠ [] =>
              hc.2 hS)]
          by_cases hD : tierSearch .double idx querystr limit = []
          · rw [if_pos hD,
              if_neg (fun hc : maxdist = 2 ∧ tierSearch .double idx querystr limit ≠ [] =>
                hc.2 hD)]
            rfl
          · rw [if_neg hD, if_pos (⟨h2, hD⟩ : maxdist = 2 ∧ _)]
        · rw [if_neg hS, if_pos (⟨h0, hS⟩ : maxdist ≠ 0 ∧ _)]
      · rw [if_neg hE, if_pos hE]
    · have hlv : levels maxdist = [Level.exact, Level.single] := by
        simp [levels, h0, h2]
      rw [hlv, findLoop_cons]
      by_cases hE : tierSearch .exact idx querystr limit = []
      · rw [if_pos hE, findLoop_cons, if_neg (not_not_intro hE)]
        by_cases hS : tierSearch .single idx querystr limit = []
        · rw [if_pos hS,
            if_neg (fun hc : maxdist ≠ 0 ∧ tierSearch .single idx querystr limit ≠ [] =>
              hc.2 hS),
            if_neg (fun hc : maxdist = 2 ∧ tierSearch .double idx querystr limit ≠ [] =>
              h2 hc.1)]
          rfl
        · rw [if_neg hS, if_pos (⟨h0, hS⟩ : maxdist ≠ 0 ∧ _)]
      · rw [if_neg hE, if_pos hE]

/-- Witness for C1 at a concrete call. -/
theorem find_cascade_witness :
    find [] none none "x" 10 2 true true =
      (if tierSearch .exact [] "x" 10 ≠ [] then
        response [] none true true (tierSearch .exact [] "x" 10) none
      else if (2 : ℚ) ≠ 0 ∧ tierSearch .single [] "x" 10 ≠ [] then
        response [] none true true (tierSearch .single [] "x" 10) none
      else if (2 : ℚ) = 2 ∧ tierSearch .double [] "x" 10 ≠ [] then
        response [] none true true (tierSearch .double [] "x" 10) none
      else .ok ([], none, 0)) :=
  find_cascade [] none none "x" 10 2 true true (by norm_num)

/-- C3: a `find` call with `maxdist` greater than 2 fails immediately with
`ValueError`, and its outcome is independent of the index contents and the
placecodes file — no index access happens before the failure. -/
theorem find_invalid_maxdist (maxdist : ℚ) (h : maxdist > 2) (idx : List Doc)
    (file cache : Option Table) (q : String) (limit : Nat) (hier expand : Bool) :
    find idx file cache q limit maxdist hier expand = .error .valueError ∧
    find idx file cache q limit maxdist hier expand =
      find [] none none q limit maxdist hier expand := by
  constructor
  · simp only [find, if_pos h]
  · simp only [find, if_pos h]

/-- Witness for C3 at `maxdist = 3`. -/
theorem find_invalid_maxdist_witness :
    find [sampleGeo] (some sampleTable) none "x" 10 3 true true = .error .valueError ∧
    find [sampleGeo] (some sampleTable) none "x" 10 3 true true =
      find [] none none "x" 10 3 true true :=
  find_invalid_maxdist 3 (by norm_num) [sampleGeo] (some sampleTable) none "x" 10 true true

/-- C4: the hierarchy walk attaches a level `n` summary exactly when every
level `1..n` has a non-empty admin code and a containment query (country
plus all admin codes up to that level plus `feature_code = ADM<level>`)
with exactly one match; the attached summary is the unique match with the
hierarchical/classification fields stripped, and no level beyond 4 or
beyond the first stopping level is ever attached. -/
theorem add_hierarchy_mem_iff (idx : List Doc) (atb : Doc) (n : Nat) (s : AdminSummary) :
    (n, s) ∈ add_hierarchy idx atb ↔
      (1 ≤ n ∧ n ≤ 4 ∧ (∀ k, 1 ≤ k → k ≤ n → levelOK idx atb k) ∧
        ∃ other, containQuery idx atb n = [other] ∧ s = stripFields other) := by
  have h := hierGo_mem idx atb 4 0
    (fun d => termMatch d.country_code (lowerStr atb.country_code))
    (fun d => by simp [List.range'_zero])
  have hlist : List.range' (0 + 1) 4 = [1, 2, 3, 4] := rfl
  rw [hlist] at h
  simpa [add_hierarchy] using h n s

/-- Witness for C4: the sample city record resolves its ADM1 parent. -/
theorem add_hierarchy_mem_iff_witness :
    1 ≤ 1 ∧ 1 ≤ 4 ∧ (∀ k, 1 ≤ k → k ≤ 1 → levelOK [sampleGeo, sampleAdm1] sampleGeo k) ∧
      ∃ other, containQuery [sampleGeo, sampleAdm1] sampleGeo 1 = [other] ∧
        stripFields sampleAdm1 = stripFields other :=
  (add_hierarchy_mem_iff [sampleGeo, sampleAdm1] sampleGeo 1 (stripFields sampleAdm1)).mp
    (by decide)

/-- C10: every `maxdist` not greater than 2 — negative and fractional
values included — is accepted: `find` never raises `ValueError` for it;
every accepted value other than 0 enables the single-fuzzy tier, and only
the value 2 enables the double-fuzzy tier. -/
theorem find_accepts_le_two (maxdist : ℚ) (h : maxdist ≤ 2) :
    (∀ (idx : List Doc) (file cache : Option Table) (q : String) (limit : Nat)
       (hier expand : Bool),
       find idx file cache q limit maxdist hier expand ≠ .error .valueError) ∧
    (Level.single ∈ levels maxdist ↔ maxdist ≠ 0) ∧
    (Level.double ∈ levels maxdist ↔ maxdist = 2) := by
  refine ⟨?_, ?_, ?_⟩
  · intro idx file cache q limit hier expand hcontra
    simp only [find, if_neg (not_lt.mpr h)] at hcontra
    exact GeoErr.noConfusion (findLoop_error hcontra)
  · by_cases h0 : maxdist = 0
    · subst h0
      decide
    · by_cases h2 : maxdist = 2
      · subst h2
        decide
      · simp [levels, h0, h2]
  · by_cases h0 : maxdist = 0
    · subst h0
      decide
    · by_cases h2 : maxdist = 2
      · subst h2
        decide
      · simp [levels, h0, h2]

/-- Witness for C10 at a negative and at a fractional `maxdist`. -/
theorem find_accepts_le_two_witness :
    ((∀ (idx : List Doc) (file cache : Option Table) (q : String) (limit : Nat)
        (hier expand : Bool),
        find idx file cache q limit (-1) hier expand ≠ .error .valueError) ∧
      (Level.single ∈ levels (-1) ↔ (-1 : ℚ) ≠ 0) ∧
      (Level.double ∈ levels (-1) ↔ (-1 : ℚ) = 2)) ∧
    ((∀ (idx : List Doc) (file cache : Option Table) (q : String) (limit : Nat)
        (hier expand : Bool),
        find idx file cache q limit (3 / 2) hier expand ≠ .error .valueError) ∧
      (Level.single ∈ levels (3 / 2) ↔ (3 / 2 : ℚ) ≠ 0) ∧
      (Level.double ∈ levels (3 / 2) ↔ (3 / 2 : ℚ) = 2)) :=
  ⟨find_accepts_le_two (-1) (by norm_num), find_accepts_le_two (3 / 2) (by norm_num)⟩

/-- C2 counterexample: a REPLACE-mode build over two records that share
geonameid "1" retrieves both of them — REPLACE is add-only, not an
id-keyed upsert, so duplicate ids survive. -/
theorem download_replace_duplicate_ids :
    dirDocs (download [[sampleA, sampleB]] .absent true) = [sampleA, sampleB] ∧
    sampleA.geonameid = sampleB.geonameid ∧ sampleA ≠ sampleB :=
  ⟨rfl, rfl, by decide⟩

/-- C2 (amended): a REPLACE-mode build (`overwrite=True`, hence
`append=True` and `add_document`) retrieves the concatenation of every
input file's records, duplicate ids included; an APPEND-mode build
(`overwrite=False`, hence `update_document`) upserts each record keyed by
`geonameid` — the last write for an id wins and id-uniqueness of the
existing index is preserved. -/
theorem download_insert_semantics :
    (∀ (f : List Doc) (files : List (List Doc)) (d0 : IndexDir),
      dirDocs (download (f :: files) d0 true) = (f :: files).flatten) ∧
    (∀ (records : List Doc) (s0 : IdxState),
      dirDocs (download [records] (.withIndex s0) false) =
        records.foldl upsertById s0.docs) ∧
    (∀ (records : List Doc) (s0 : IdxState),
      (s0.docs.map Doc.geonameid).Nodup →
        ((dirDocs (download [records] (.withIndex s0) false)).map Doc.geonameid).Nodup) := by
  have happend : ∀ (records : List Doc) (s0 : IdxState),
      dirDocs (download [records] (.withIndex s0) false) =
        records.foldl upsertById s0.docs := by
    intro records s0
    show dirDocs (downloadLoop false [records] false (.withIndex s0)) = _
    simp only [downloadLoop, indexfile_open]
    simp [dirDocs, writeLoop_docs_false]
  refine ⟨?_, happend, ?_⟩
  · intro f files d0
    show dirDocs (downloadLoop true (f :: files) true d0) = _
    simp only [downloadLoop, indexfile_overwrite]
    obtain ⟨s', hdl, hdocs, -⟩ := downloadLoop_replace files (writeLoop true f 0 ⟨[], []⟩)
    rw [hdl]
    simp [dirDocs, hdocs, writeLoop_docs_true]
  · intro records s0 h
    rw [happend records s0]
    exact foldl_upsert_nodup records s0.docs h

/-- Witness for C2 at a concrete APPEND build over an id-unique index. -/
theorem download_insert_semantics_witness :
    ((dirDocs (download [[sampleA, sampleB]] (.withIndex ⟨[], []⟩) false)).map
      Doc.geonameid).Nodup :=
  download_insert_semantics.2.2 [sampleA, sampleB] ⟨[], []⟩ (by decide)

/-- C5 counterexample: an APPEND-mode `_indexfile` call with the index
directory entirely absent does not fail — it creates a fresh empty index
and commits it. -/
theorem indexfile_append_absent_proceeds :
    indexfile [] .absent false false = .ok ⟨[], [true]⟩ := rfl

/-- C5 (amended): `_indexfile` with `overwrite=False` raises whoosh's
`EmptyIndexError` only when the index directory exists but holds no index;
when the directory is absent it creates a fresh empty index and proceeds,
and with `overwrite=True` it always creates a fresh empty index. -/
theorem indexfile_open_or_create (records : List Doc) (append : Bool) :
    indexfile records .emptyDir false append = .error .emptyIndex ∧
    indexfile records .absent false append = .ok (writeLoop append records 0 ⟨[], []⟩) ∧
    (∀ s, indexfile records (.withIndex s) false append =
      .ok (writeLoop append records 0 s)) ∧
    (∀ d, indexfile records d true append = .ok (writeLoop append records 0 ⟨[], []⟩)) :=
  ⟨rfl, rfl, fun s => rfl, fun d => indexfile_overwrite records d append⟩

/-- C6: `findpos` returns (through the response pipeline) exactly the
indexed records, up to `limit`, whose latitude lies in `[lat-r, lat+r]`
and longitude in `[lon-r, lon+r]` — an inclusive conjunctive range
filter; the half-width defaults to 0.001, a record at (10, 20) is found
from (10.0005, 20.0005) at that default, and missed from (10.01, 20.01). -/
theorem findpos_bbox (idx : List Doc) (file cache : Option Table) (lat lon r : ℚ)
    (limit : Nat) (hier expand : Bool) :
    (∀ eds c2 n, findpos idx file cache lat lon limit r hier expand = .ok (eds, c2, n) →
      eds.map EnrichedDoc.place = bboxSearch idx lat lon limit r) ∧
    (∀ d, d ∈ bboxSearch idx lat lon limit r → d ∈ idx ∧ inBox lat lon r d) ∧
    ((idx.filter (bboxPred lat lon r)).length ≤ limit →
      ∀ d, (d ∈ bboxSearch idx lat lon limit r ↔ d ∈ idx ∧ inBox lat lon r d)) ∧
    DEFAULT_RANGE = 1 / 1000 ∧
    sampleGeo ∈ bboxSearch [sampleGeo] (20001 / 2000) (40001 / 2000) 10 DEFAULT_RANGE ∧
    sampleGeo ∉ bboxSearch [sampleGeo] (1001 / 100) (2001 / 100) 10 DEFAULT_RANGE := by
  refine ⟨?_, ?_, ?_, rfl, ?_, ?_⟩
  · intro eds c2 n h
    exact response_ok_places h
  · intro d hd
    have hd2 := List.mem_of_mem_take hd
    rw [List.mem_filter] at hd2
    exact ⟨hd2.1, (bboxPred_eq_true_iff lat lon r d).mp hd2.2⟩
  · intro hlen d
    unfold bboxSearch
    rw [List.take_of_length_le hlen, List.mem_filter]
    exact and_congr_right fun _ => bboxPred_eq_true_iff lat lon r d
  · have h : bboxSearch [sampleGeo] (20001 / 2000) (40001 / 2000) 10 DEFAULT_RANGE =
        [sampleGeo] := by
      norm_num [bboxSearch, bboxPred, DEFAULT_RANGE, sampleGeo, List.filter]
    rw [h]
    exact List.mem_singleton_self _
  · have h : bboxSearch [sampleGeo] (1001 / 100) (2001 / 100) 10 DEFAULT_RANGE = [] := by
      norm_num [bboxSearch, bboxPred, DEFAULT_RANGE, sampleGeo, List.filter]
    rw [h]
    simp

/-- Witness for C6: the sample record is in the box of the nearby query. -/
theorem findpos_bbox_witness :
    sampleGeo ∈ [sampleGeo] ∧ inBox (20001 / 2000) (40001 / 2000) DEFAULT_RANGE sampleGeo := by
  have h := findpos_bbox [sampleGeo] none none (20001 / 2000) (40001 / 2000)
    DEFAULT_RANGE 10 true true
  exact h.2.1 sampleGeo h.2.2.2.2.1

/-- C7: evaluating the enricher at the failing input — the placecodes file
absent from disk — raises `FileNotFoundError` instead of degrading to
empty descriptions, and a `find` call whose exact tier matches propagates
that error to the caller. -/
theorem add_description_absent_file_raises :
    add_description none none sampleGeo = .error .fileNotFound ∧
    find [sampleGeo] none none "Sample" 10 2 true true = .error .fileNotFound :=
  ⟨rfl, rfl⟩

/-- C8 counterexample: the single commit of a REPLACE-mode build is issued
with `optimize=False`, and the single commit of an APPEND-mode build with
`optimize=True` — the opposite of the claimed orientation. -/
theorem download_commit_optimize_flags :
    dirLog (download [[sampleA]] .absent true) = [false] ∧
    dirLog (download [[sampleA]] (.withIndex ⟨[], []⟩) false) = [true] :=
  ⟨rfl, rfl⟩

/-- C8 (amended): every commit issued during a REPLACE-mode build carries
`optimize=False` (since `append=overwrite=True` and the code passes
`optimize=not append`), while every commit issued during an APPEND-mode
build on an existing index carries `optimize=True`. -/
theorem download_commit_optimize :
    (∀ (f : List Doc) (files : List (List Doc)) (d0 : IndexDir) (b : Bool),
      b ∈ dirLog (download (f :: files) d0 true) → b = false) ∧
    (∀ (records : List Doc) (s0 : IdxState) (b : Bool),
      b ∈ (dirLog (download [records] (.withIndex s0) false)).drop
          s0.commitLog.length → b = true) := by
  constructor
  · intro f files d0 b hb
    simp only [download, downloadLoop, indexfile_overwrite] at hb
    obtain ⟨s', hdl, -, new2, hlog, hnew2⟩ :=
      downloadLoop_replace files (writeLoop true f 0 ⟨[], []⟩)
    rw [hdl] at hb
    obtain ⟨new1, hl1, hnew1⟩ := writeLoop_log true f 0 ⟨[], []⟩
    simp only [dirLog] at hb
    rw [hlog, hl1] at hb
    simp only [List.nil_append, List.mem_append] at hb
    rcases hb with hb | hb
    · simpa using hnew1 b hb
    · exact hnew2 b hb
  · intro records s0 b hb
    simp only [download, downloadLoop, indexfile_open] at hb
    obtain ⟨new, hl, hnew⟩ := writeLoop_log false records 0 s0
    simp only [dirLog] at hb
    rw [hl, List.drop_left] at hb
    simpa using hnew b hb

/-- Witness for C8 at concrete one-record builds. -/
theorem download_commit_optimize_witness : false = false ∧ true = true :=
  ⟨download_commit_optimize.1 [sampleA] [] .absent false (by decide),
   download_commit_optimize.2 [sampleA] ⟨[], []⟩ true (by decide)⟩

/-- C9 counterexample: with an empty table written on disk, the falsiness
guard (`if not self.place_codes`) defeats the cache — a second enrichment
on the same instance performs a second disk read, so the table is not
loaded at most once per instance. -/
theorem place_codes_empty_table_reload :
    add_description (some []) none sampleGeo = .ok (⟨none, "", ""⟩, some [], 1) ∧
    add_description (some []) (some []) sampleGeo = .ok (⟨none, "", ""⟩, some [], 1) :=
  ⟨rfl, rfl⟩

/-- C9 (amended): the placecodes table is loaded lazily by the first
enrichment; provided the loaded table is non-empty, every later enrichment
reuses the cached copy and performs no disk read, whatever the file then
holds. An empty loaded table is re-read on every enrichment. -/
theorem place_codes_loaded_once (t : Table) (ht : t ≠ []) (d : Doc)
    (file2 : Option Table) :
    add_description (some t) none d = .ok (descrOf t d, some t, 1) ∧
    add_description file2 (some t) d = .ok (descrOf t d, some t, 0) := by
  constructor
  · rfl
  · have hf : tableFalsy (some t) = false := by
      cases t with
      | nil => exact absurd rfl ht
      | cons a l => rfl
    simp [add_description, hf]

/-- Witness for C9 at a concrete non-empty table. -/
theorem place_codes_loaded_once_witness :
    add_description (some sampleTable) none sampleGeo =
      .ok (descrOf sampleTable sampleGeo, some sampleTable, 1) ∧
    add_description none (some sampleTable) sampleGeo =
      .ok (descrOf sampleTable sampleGeo, some sampleTable, 0) :=
  place_codes_loaded_once sampleTable (by decide) sampleGeo none

end GeoSearch
